import Mathlib

/-!
PaperFinder — verification of the spec claims against a shallow embedding.

This file embeds the core of the PaperFinder repository
(`backend/paper_finder`) in Lean 4 and settles the frozen claims about it.

Embedding conventions:
* Python strings are Lean `String`s, manipulated through their `List Char`
  representation.  Python's `str.lower`/`str.upper`/case-insensitive regex
  matching are modelled on the ASCII range (the Unicode case table beyond
  ASCII is not modelled; no claim below depends on it — CJK characters,
  which do occur in inputs, are caseless in Python as well as here).
* Python's whitespace class (`\s`, `str.strip`) is modelled by the ASCII
  whitespace characters.
* `None`-able values are `Option`s; Python truthiness of a string `s` is
  `s ≠ ""`, of an optional string `o` is `o.getD "" ≠ ""`.
* Fallible code returns `Except`; Django ORM stores are `List Paper`
  values threaded explicitly.
-/

namespace PaperFinder

/-! ## Character-level helpers (ASCII model of Python string behaviour) -/

/-- ASCII whitespace: the characters stripped by Python's `str.strip()` and
matched by the regex class `\s` (space, tab, LF, VT, FF, CR). -/
def isSpaceB (c : Char) : Bool :=
  decide (c.toNat = 32 ∨ (9 ≤ c.toNat ∧ c.toNat ≤ 13))

/-- The separator-punctuation class of `_PUNCS = [··.\-_,;/]` in
`utils/names.py`: middle dot (U+00B7), `.`, `-`, `_`, `,`, `;`, `/`. -/
def isPuncB (c : Char) : Bool :=
  decide (c.toNat = 183 ∨ c.toNat = 46 ∨ c.toNat = 45 ∨ c.toNat = 95 ∨
          c.toNat = 44 ∨ c.toNat = 59 ∨ c.toNat = 47)

/-- ASCII upper-case letter. -/
def isUpperB (c : Char) : Bool :=
  decide (65 ≤ c.toNat ∧ c.toNat ≤ 90)

/-- ASCII letter (the cased characters relevant to `str.title`). -/
def isAlphaB (c : Char) : Bool :=
  isUpperB c || decide (97 ≤ c.toNat ∧ c.toNat ≤ 122)

/-- ASCII lower-case letter or digit: exactly the characters kept by
`re.sub(r"[^a-z0-9]", "", ...)` in `compact_token`. -/
def isLowerAlnumB (c : Char) : Bool :=
  decide ((97 ≤ c.toNat ∧ c.toNat ≤ 122) ∨ (48 ≤ c.toNat ∧ c.toNat ≤ 57))

/-- ASCII lower-casing of one character (model of `str.lower`). -/
def lowerChar (c : Char) : Char :=
  if isUpperB c then Char.ofNat (c.toNat + 32) else c

/-- ASCII upper-casing of one character (model of `str.upper`). -/
def upperChar (c : Char) : Char :=
  if decide (97 ≤ c.toNat ∧ c.toNat ≤ 122) then Char.ofNat (c.toNat - 32) else c

/-! ## List-level string operations -/

/-- `str.strip()`: drop leading and trailing whitespace. -/
def stripL (l : List Char) : List Char :=
  ((l.dropWhile isSpaceB).reverse.dropWhile isSpaceB).reverse

/-- `_PUNCS.sub(" ", s)`: replace every maximal run of separator
punctuation by a single space.  The flag records whether we are inside a
run that has already emitted its space. -/
def puncSubGo : Bool → List Char → List Char
  | _, [] => []
  | inRun, c :: cs =>
    if isPuncB c then
      (if inRun then puncSubGo true cs else ' ' :: puncSubGo true cs)
    else c :: puncSubGo false cs

/-- `_SPACES.sub(" ", s)`: replace every maximal run of whitespace by a
single space. -/
def spaceSubGo : Bool → List Char → List Char
  | _, [] => []
  | inRun, c :: cs =>
    if isSpaceB c then
      (if inRun then spaceSubGo true cs else ' ' :: spaceSubGo true cs)
    else c :: spaceSubGo false cs

/-- `str.lower()` on a character list (ASCII model). -/
def lowerL (l : List Char) : List Char := l.map lowerChar

/-! ## The Normalizer (`utils/names.py`) -/

/-- `normalize_name(s)`: strip, replace separator punctuation by spaces,
collapse whitespace runs, lower-case.  (`s or ""` for `None` inputs is
absorbed by taking a `String` argument.) -/
def normalize_name (s : String) : String :=
  ⟨lowerL (spaceSubGo false (puncSubGo false (stripL s.toList)))⟩

/-- `compact_token(s) = re.sub(r"[^a-z0-9]", "", normalize_name(s))`. -/
def compact_token (s : String) : String :=
  ⟨(normalize_name s).toList.filter isLowerAlnumB⟩

/-! ## Further string utilities used by the Variant Generator -/

/-- `str.lower()` (ASCII model). -/
def lowerS (s : String) : String := ⟨lowerL s.toList⟩

/-- `str.strip()` on `String`. -/
def pyStripS (s : String) : String := ⟨stripL s.toList⟩

/-- `str.title()`: upper-case every cased character that follows a
non-cased character, lower-case the others (ASCII model). -/
def titleGo : Bool → List Char → List Char
  | _, [] => []
  | prevCased, c :: cs =>
    (if isAlphaB c then (if prevCased then lowerChar c else upperChar c) else c)
      :: titleGo (isAlphaB c) cs

/-- `str.title()` on `String`. -/
def pyTitle (s : String) : String := ⟨titleGo false s.toList⟩

/-- `str.split()` (no argument): split on whitespace runs, no empty parts.
`cur` accumulates the current word in reverse. -/
def splitWsGo (cur : List Char) : List Char → List (List Char)
  | [] => if cur.isEmpty then [] else [cur.reverse]
  | c :: cs =>
    if isSpaceB c then
      (if cur.isEmpty then splitWsGo [] cs else cur.reverse :: splitWsGo [] cs)
    else splitWsGo (c :: cur) cs

/-- `str.split()` on a character list. -/
def splitWsL (l : List Char) : List (List Char) := splitWsGo [] l

/-- `s.split(",", 1)` together with the `"," in s` test: `some (before,
after)` at the first comma, `none` when there is no comma. -/
def splitFirstComma (acc : List Char) : List Char → Option (List Char × List Char)
  | [] => none
  | c :: cs => if c = ',' then some (acc.reverse, cs) else splitFirstComma (c :: acc) cs

/-- `s.strip(", ")`: drop the characters `,` and space from both ends. -/
def isCommaSpaceB (c : Char) : Bool := decide (c = ',' ∨ c = ' ')

/-- Strip `,` and space from both ends of a character list. -/
def stripCommaSpaceL (l : List Char) : List Char :=
  ((l.dropWhile isCommaSpaceB).reverse.dropWhile isCommaSpaceB).reverse

/-- `s.replace(t, rep)` where the needle `t` is a single character
(`str.replace` replaces every occurrence). -/
def replaceCharAll (t : Char) (rep : List Char) (l : List Char) : List Char :=
  l.flatMap (fun c => if c = t then rep else [c])

/-! ## Variant Generator (`utils/names.py`) -/

/-- `split_en_name(name)`: naive given/family split.  A comma splits
family/given directly; otherwise the last whitespace token is the family
name.  (Note: `normalize_name` replaces commas by spaces, so the comma
branch is unreachable in the source; it is embedded faithfully anyway.) -/
def split_en_name (name : String) : String × String :=
  let n := normalize_name name
  match splitFirstComma [] n.toList with
  | some (famL, givL) =>
    (pyTitle (pyStripS ⟨givL⟩), pyTitle (pyStripS ⟨famL⟩))
  | none =>
    let parts := splitWsL n.toList
    if parts.length ≥ 2 then
      (pyTitle ⟨List.intercalate [' '] parts.dropLast⟩, pyTitle ⟨parts.getLastD []⟩)
    else (pyTitle n, "")

/-- `_abbr_token(tok)`: first character of the stripped token followed by
a period. -/
def abbr_token (tok : String) : String :=
  ⟨(stripL tok.toList).take 1⟩ ++ "."

/-- The priority-partitioned variant buckets returned by
`generate_variants` (a dict with keys 0,1,2,3 in the source). -/
structure VariantGroups where
  p0 : List String
  p1 : List String
  p2 : List String
  p3 : List String
deriving Repr, DecidableEq

/-- Per-bucket deduplication: keep non-empty strings whose lower-cased
form was not seen before (first-seen wins). -/
def dedupCI (seen : List String) : List String → List String
  | [] => []
  | s :: rest =>
    if s = "" then dedupCI seen rest
    else if lowerS s ∈ seen then dedupCI seen rest
    else s :: dedupCI (lowerS s :: seen) rest

/-- `res[0].append(s)` guarded by `if s and s not in res[0]`. -/
def appendIfNew (acc : List String) (s : String) : List String :=
  if s ≠ "" ∧ s ∉ acc then acc ++ [s] else acc

/-- `generate_variants(cn_name, pinyin_override)`.  The pypinyin-based
`cn_to_pinyin_space` step is an optional external dependency (the source
degrades to `None` when pypinyin is missing); it is passed in as the
`translit` parameter, with `fun x => none` modelling the documented
degradation path. -/
def generate_variants (translit : String → Option String)
    (cn_name : String) (pinyin_override : Option String) : VariantGroups :=
  let r0 : List String := if cn_name ≠ "" then [cn_name] else []
  let ov := pyStripS (pinyin_override.getD "")
  let pin0 : String := if ov ≠ "" then ov else (translit cn_name).getD ""
  let pin := pyStripS ⟨spaceSubGo false pin0.toList⟩
  if pin ≠ "" then
    let gf := split_en_name pin
    let giv := gf.1
    let fam := gf.2
    let lf := pyStripS (fam ++ " " ++ giv)
    let fl := pyStripS (giv ++ " " ++ fam)
    let comma := pyStripS ⟨stripCommaSpaceL (fam ++ ", " ++ giv).toList⟩
    let r0 := appendIfNew (appendIfNew (appendIfNew r0 fl) lf) comma
    let r1 : List String :=
      if giv ≠ "" ∧ fam ≠ "" then
        let givFirst := abbr_token ⟨(splitWsL giv.toList).headD []⟩
        let famFirst := abbr_token ⟨(splitWsL fam.toList).headD []⟩
        let raw : List String :=
          [givFirst ++ " " ++ fam, famFirst ++ " " ++ giv,
           fam ++ " " ++ givFirst, fam ++ ", " ++ givFirst,
           givFirst ++ famFirst,
           (⟨giv.toList.take 1⟩ : String) ++ " " ++ fam,
           (⟨fam.toList.take 1⟩ : String) ++ " " ++ giv]
        raw.map (fun s => pyStripS ⟨spaceSubGo false s.toList⟩)
      else []
    let r2 : List String :=
      [⟨replaceCharAll ' ' ['-'] fl.toList⟩, ⟨replaceCharAll ' ' ['-'] lf.toList⟩,
       ⟨replaceCharAll ' ' [] fl.toList⟩, ⟨replaceCharAll ' ' [] lf.toList⟩,
       ⟨replaceCharAll ' ' ['.'] fl.toList⟩, ⟨replaceCharAll ' ' ['.'] lf.toList⟩]
    ⟨dedupCI [] r0, dedupCI [] r1, dedupCI [] r2, dedupCI [] []⟩
  else
    ⟨dedupCI [] r0, dedupCI [] [], dedupCI [] [], dedupCI [] []⟩

/-- Final normalisation loop of `all_variant_texts_for_match`: collect
`compact_token x` for each variant, skipping empty tokens and duplicates. -/
def normTokens (seen : List String) : List String → List String
  | [] => []
  | x :: rest =>
    let n := compact_token x
    if n ≠ "" ∧ n ∉ seen then n :: normTokens (n :: seen) rest
    else normTokens seen rest

/-- `all_variant_texts_for_match(cn_name, pinyin_override)`: flatten the
variant buckets in priority order, add given/family swap renderings, then
compact-tokenise with deduplication. -/
def all_variant_texts_for_match (translit : String → Option String)
    (cn_name : String) (pinyin_override : Option String) : List String :=
  let groups := generate_variants translit cn_name pinyin_override
  let flat := groups.p0 ++ groups.p1 ++ groups.p2 ++ groups.p3
  let extra := flat.flatMap (fun v =>
    let gf := split_en_name v
    if gf.1 ≠ "" ∧ gf.2 ≠ "" then
      [gf.1 ++ " " ++ gf.2, gf.2 ++ " " ++ gf.1, gf.2 ++ ", " ++ gf.1]
    else [])
  normTokens [] (flat ++ extra)

/-! ## Identity Matcher (`utils/names.py`, `services/matching.py`) -/

/-- `any_variant_match(authors, variants_norm_tokens)`: does some author
string match some variant token after compact-tokenisation, also trying
the given/family swapped renderings of the author string? -/
def any_variant_match (authors : List String) (variants_norm_tokens : List String) : Bool :=
  if authors.isEmpty || variants_norm_tokens.isEmpty then false
  else authors.any (fun a =>
    if a = "" then false
    else if variants_norm_tokens.contains (compact_token a) then true
    else
      let gf := split_en_name a
      variants_norm_tokens.contains (compact_token (gf.1 ++ " " ++ gf.2)) ||
      variants_norm_tokens.contains (compact_token (gf.2 ++ " " ++ gf.1)) ||
      variants_norm_tokens.contains (compact_token (gf.2 ++ ", " ++ gf.1)))

/-- Plain substring test on character lists (Python's `needle in hay`). -/
def isPrefB : List Char → List Char → Bool
  | [], _ => true
  | _ :: _, [] => false
  | a :: as, b :: bs => a == b && isPrefB as bs

/-- Substring occurrence anywhere in the haystack. -/
def hasSubL (needle : List Char) : List Char → Bool
  | [] => needle.isEmpty
  | c :: cs => isPrefB needle (c :: cs) || hasSubL needle cs

/-- `aff_hits(aff_list, aff_kw)` from `services/matching.py`: pass when no
affiliation keyword is supplied; otherwise require the folded keyword to
occur as a substring of some folded affiliation string. -/
def aff_hits (aff_list : Option (List String)) (aff_kw : Option String) : Bool :=
  if aff_kw.getD "" = "" then true
  else
    let key := normalize_name (aff_kw.getD "")
    (aff_list.getD []).any (fun a => hasSubL key.toList (normalize_name a).toList)

/-! ## Data model (`models.py`, `sources/base.py`) -/

/-- A provider record (`PaperItem` in `sources/base.py`, a dict).  Fields
accessed with `.get` default to `None`, modelled as `Option`s.  `state` is
not produced by any adapter but is read defensively by `save_items` via
`getattr`; `ext_ids` (an opaque provider-id map, never read by the core)
is omitted. -/
structure Item where
  title : Option String := none
  authors : Option (List String) := none
  year : Option Int := none
  venue : Option String := none
  doi : Option String := none
  url : Option String := none
  pdf_url : Option String := none
  source : Option String := none
  source_id : Option String := none
  affiliations : Option (List String) := none
  state : Option String := none
deriving Repr, DecidableEq

/-- A stored row of the `Paper` model (`models.py`).  The Lean default
values are the Django field defaults (`state="pending"`, `score=0.0`,
blank strings).  The model has **no** `source_id` field.  `score` is a
`FloatField`; it only ever holds the exact value `0.0` in the core, so it
is modelled as `ℚ`. -/
structure Paper where
  title : String := ""
  year : Option Int := none
  month : Option Int := none
  venue : String := ""
  doi : Option String := none
  url : String := ""
  source : String := ""
  authors : List String := []
  score : ℚ := 0
  state : String := "pending"
  task_ref : String := ""
deriving Repr, DecidableEq

/-! ## Deduplication engine (`services/storage.py`) -/

/-- Python f-string rendering of a possibly-`None` string
(`f"{title_token}|{item.source}"` renders `None` as `"None"`). -/
def pyFStr : Option String → String
  | some s => s
  | none => "None"

/-- `_key_for_dedupe(item)`: prefer the trimmed, lower-cased DOI;
otherwise fall back to `(title_token, year, source)`.  Note that no
resolver-URL prefix is stripped here (unlike `views.normalize_doi`). -/
def key_for_dedupe (it : Item) : String × Option Int × String :=
  let doi := lowerS (pyStripS (it.doi.getD ""))
  if doi ≠ "" then ("doi", none, doi)
  else ("tysource", it.year, compact_token (it.title.getD "") ++ "|" ++ pyFStr it.source)

/-- The loop of `dedupe_in_memory` with its `seen` set. -/
def dedupe_go (seen : List (String × Option Int × String)) : List Item → List Item
  | [] => []
  | it :: rest =>
    let k := key_for_dedupe it
    if k ∈ seen then dedupe_go seen rest else it :: dedupe_go (k :: seen) rest

/-- `dedupe_in_memory(items)`: in-batch deduplication. -/
def dedupe_in_memory (items : List Item) : List Item := dedupe_go [] items

/-- Written from the spec's words, for comparison with
`dedupe_in_memory`: "Keep only the first record per key within the batch
(first-seen wins)" — keep each record and delete every later record with
the same key. -/
def specKeepFirstByKey : List Item → List Item
  | [] => []
  | it :: rest =>
    it :: specKeepFirstByKey
      (rest.filter (fun y => decide (key_for_dedupe y ≠ key_for_dedupe it)))
termination_by l => l.length
decreasing_by
  simp only [List.length_cons]
  exact Nat.lt_succ_of_le (List.length_filter_le _ _)

/-! ## Upsert engine A: `storage.save_items` -/

/-- `getattr(it, "state", default_state) or default_state`. -/
def stateOf (it : Item) (default_state : String) : String :=
  let s := it.state.getD default_state
  if s = "" then default_state else s

/-- Update the first row matching `pred` (the `.first()` of a filtered
queryset followed by `.save()`). -/
def updateFirstWhere (pred : Paper → Bool) (f : Paper → Paper) : List Paper → List Paper
  | [] => []
  | p :: rest => if pred p then f p :: rest else p :: updateFirstWhere pred f rest

/-- One iteration of the `save_items` loop on one item.
`update_or_create(doi=...)` matches at most one row because `Paper.doi`
is unique; the update is modelled as mapping over the (at most one)
matching rows.  The no-DOI branch takes `.first()` of the rows matching
`(year, source, title__iregex=rf"^{token}$")`; since the token is
lower-case alphanumeric (so `re.escape` is the identity on it), the
case-insensitive anchored regex match is equality of the lower-cased
title with the token. -/
def save_items_step (job_id : String) (default_state : String)
    (store : List Paper) (it : Item) : List Paper :=
  let doi := lowerS (pyStripS (it.doi.getD ""))
  if doi ≠ "" then
    let upd : Paper → Paper := fun p =>
      { p with title := it.title.getD "", year := it.year, venue := it.venue.getD "",
               url := it.url.getD "", source := it.source.getD "",
               task_ref := job_id, state := stateOf it default_state, score := 0 }
    if store.any (fun p => p.doi == some doi) then
      store.map (fun p => if p.doi == some doi then upd p else p)
    else
      store ++ [{ title := it.title.getD "", year := it.year, venue := it.venue.getD "",
                  url := it.url.getD "", source := it.source.getD "", doi := some doi,
                  task_ref := job_id, state := stateOf it default_state, score := 0 }]
  else
    let tok := compact_token (it.title.getD "")
    let pred : Paper → Bool := fun p =>
      p.year == it.year && p.source == it.source.getD "" && lowerS p.title == tok
    if store.any pred then
      updateFirstWhere pred (fun found =>
        { found with
          title := if it.title.getD "" ≠ "" then it.title.getD "" else found.title,
          venue := if it.venue.getD "" ≠ "" then it.venue.getD "" else found.venue,
          url := if it.url.getD "" ≠ "" then it.url.getD "" else found.url,
          task_ref := job_id, state := stateOf it default_state, score := 0 }) store
    else
      store ++ [{ title := it.title.getD "", year := it.year, venue := it.venue.getD "",
                  doi := none, url := it.url.getD "", source := it.source.getD "",
                  score := 0, state := stateOf it default_state, task_ref := job_id }]

/-- `save_items(job_id, items)`: fold the step over the batch; the
returned count increments on every branch. -/
def save_items (job_id : String) (items : List Item) (store : List Paper)
    (default_state : String := "pending") : List Paper × Nat :=
  items.foldl (fun acc it => (save_items_step job_id default_state acc.1 it, acc.2 + 1))
    (store, 0)

/-! ## Upsert engine B: `views.upsert_paper` -/

/-- Python's `str.replace(needle, rep)`: replace every (left-to-right,
non-overlapping) occurrence.  `skip` counts characters still to drop from
an occurrence that was already matched and replaced (structural recursion
on the haystack, so the definition evaluates in the kernel). -/
def replaceAllGo (needle rep : List Char) : List Char → Nat → List Char
  | [], _ => []
  | _ :: cs, k + 1 => replaceAllGo needle rep cs k
  | c :: cs, 0 =>
    if needle ≠ [] ∧ isPrefB needle (c :: cs) = true then
      rep ++ replaceAllGo needle rep cs (needle.length - 1)
    else c :: replaceAllGo needle rep cs 0

/-- `str.replace` entry point. -/
def replaceAllL (needle rep l : List Char) : List Char :=
  replaceAllGo needle rep l 0

/-- `normalize_doi(doi)` from `views.py`: `None` for falsy input, else
strip, drop `https://doi.org/` and `http://doi.org/` resolver prefixes,
lower-case.  (This — not `_key_for_dedupe` — is where resolver prefixes
are stripped.) -/
def normalize_doi : Option String → Option String
  | none => none
  | some s =>
    if s = "" then none
    else
      let d := pyStripS s
      let d : String := ⟨replaceAllL "https://doi.org/".toList [] d.toList⟩
      let d : String := ⟨replaceAllL "http://doi.org/".toList [] d.toList⟩
      some (lowerS d)

/-- The faults `upsert_paper` can raise in the model: Django raises
`FieldError` when `update_or_create` is given the lookup keyword
`source_id`, which names no field of `Paper`. -/
inductive PFErr where
  | fieldErrorSourceId
deriving Repr, DecidableEq

/-- The `defaults` dict of `upsert_paper`: only title, year, authors and
source (venue/abstract are commented out in the source; `task_ref` is
never written). -/
def applyUpsertDefaults (item : Item) (p : Paper) : Paper :=
  { p with title := item.title.getD "", year := item.year,
           authors := item.authors.getD [], source := item.source.getD "" }

/-- `upsert_paper(item, task_ref, hints)` from `views.py`.  The
`task_ref` and `hints` parameters are accepted but never used by the
source.  With a truthy normalized DOI the row is updated or created by
DOI; otherwise the source calls
`update_or_create(source=..., source_id=..., ...)` and Django raises
`FieldError` because the `Paper` model has no `source_id` field.  (The
`except IntegrityError` fallback in the source is only reachable under
concurrent writes and is not modelled.) -/
def upsert_paper (item : Item) (task_ref : Option String := none)
    (store : List Paper := []) : Except PFErr (List Paper) :=
  if (normalize_doi item.doi).getD "" ≠ "" then
    .ok (if store.any (fun p => p.doi == some ((normalize_doi item.doi).getD "")) then
           store.map (fun p =>
             if p.doi == some ((normalize_doi item.doi).getD "") then
               applyUpsertDefaults item p
             else p)
         else
           store ++ [{ title := item.title.getD "", year := item.year,
                       authors := item.authors.getD [], source := item.source.getD "",
                       doi := some ((normalize_doi item.doi).getD "") }])
  else .error .fieldErrorSourceId

/-! ## Job Orchestrator (`views._run_search_once`) -/

/-- The job row (`SearchJob`): terminal status and progress.  `progress`
is a Django `FloatField`; in the core it only ever holds values
`round(k/n, 3)` for small integers, which are modelled exactly in `ℚ`. -/
structure JobState where
  status : String := "running"
  progress : ℚ := 0
deriving Repr, DecidableEq

/-- The hints payload, as read by the orchestration loop
(`hints.get("sources", ["openalex"])`).  The remaining entries
(query name, pinyin, affiliation keyword, date range) are only forwarded
opaquely to the provider adapters and are not modelled. -/
structure Hints where
  sources : Option (List String) := none
deriving Repr, DecidableEq

/-- A provider adapter: `search(variantText, hints)` returns records or
raises a transport fault. -/
abbrev AdapterFn : Type := String → Hints → Except Unit (List Item)

/-- The adapter registry (the module-level `ADAPTERS` dict, passed in
explicitly; the real one maps "openalex", "crossref", "arxiv", "scholar"
to network adapters that cannot be embedded). -/
abbrev Registry : Type := List (String × AdapterFn)

/-- `ADAPTERS.get(src)`. -/
def regGet : Registry → String → Option AdapterFn
  | [], _ => none
  | (k, f) :: rest, s => if k = s then some f else regGet rest s

/-- `_normalize_variants(raw)` applied to the dict shape produced by
`generate_variants`: tag each bucket with its priority, strip each text
and drop empties (dict iteration order is insertion order 0,1,2,3). -/
def normalize_variants (g : VariantGroups) : List (Nat × String) :=
  tag 0 g.p0 ++ tag 1 g.p1 ++ tag 2 g.p2 ++ tag 3 g.p3
where
  tag (p : Nat) (l : List String) : List (Nat × String) :=
    l.filterMap (fun t =>
      let t2 := pyStripS t
      if t2 ≠ "" then some (p, t2) else none)

/-- `pairs.sort(key=lambda x: x[0])`: Python's sort is stable and every
key lies in {0,1,2,3}, so it equals this counting pass. -/
def sortPairs (l : List (Nat × String)) : List (Nat × String) :=
  l.filter (fun p => decide (p.1 = 0)) ++ l.filter (fun p => decide (p.1 = 1)) ++
  l.filter (fun p => decide (p.1 = 2)) ++ l.filter (fun p => decide (3 ≤ p.1))

/-- The variant texts the loop iterates over: priorities ≤ 2 only, capped
at `max_variants`. -/
def selected_variants (translit : String → Option String) (name : String)
    (pinyin_override : Option String) (max_variants : Nat) : List String :=
  let pairs := normalize_variants (generate_variants translit name pinyin_override)
  (((sortPairs pairs).filter (fun p => decide (p.1 ≤ 2))).map Prod.snd).take max_variants

/-- Python's `round(q, 3)` on exact values: round half to even at the
third decimal. -/
def roundHalfEven (q : ℚ) : ℤ :=
  let f := ⌊q⌋
  let r := q - f
  if r < 1/2 then f
  else if 1/2 < r then f + 1
  else if f % 2 = 0 then f else f + 1

/-- `round(x, 3)`. -/
def round3 (q : ℚ) : ℚ := (roundHalfEven (1000 * q) : ℚ) / 1000

/-- The loop state: the persistent `Paper` table, the job row, and the
local completed-unit counter `done` (exposed for specification). -/
structure LoopSt where
  store : List Paper
  job : JobState
  done : Nat
deriving Repr, DecidableEq

/-- The inner `for it in items: upsert_paper(it, ...)` of one unit.  Each
`upsert_paper` call is its own atomic block, so on a fault the already
upserted records stay committed: the error carries the store as of the
failing record. -/
def processItems (job_id : String) : List Item → List Paper → Except (List Paper) (List Paper)
  | [], store => .ok store
  | it :: rest, store =>
    match upsert_paper it (some job_id) store with
    | .ok store2 => processItems job_id rest store2
    | .error _ => .error store

/-- The nested unit loop of `_run_search_once` over `(variant, source)`
pairs: unknown providers are skipped (`continue`) without touching the
counter; adapter faults are caught per unit and degrade to `[]`; after
each processed unit the counter and the job progress are written.  An
upsert fault escapes the loop (there is no guard around it), carrying the
state at the abort.  The fixed `time.sleep(pause)` throttle has no
observable state and is not modelled. -/
def runUnits (reg : Registry) (job_id : String) (hints : Hints) (total : Nat) :
    List (String × String) → LoopSt → Except LoopSt LoopSt
  | [], st => .ok st
  | (v, src) :: rest, st =>
    match regGet reg src with
    | none => runUnits reg job_id hints total rest st
    | some adp =>
      let items := match adp v hints with | .ok its => its | .error _ => []
      match processItems job_id items st.store with
      | .error partialStore => .error { st with store := partialStore }
      | .ok store2 =>
        let done2 := st.done + 1
        let prog := round3 ((done2 : ℚ) / (max 1 total : ℚ))
        runUnits reg job_id hints total rest ⟨store2, { st.job with progress := prog }, done2⟩

/-- `_run_search_once(job_id, name, pinyin_override, hints, max_variants,
pause)`.  The `SearchJob` row and the `Paper` table are passed in and the
final state is returned (`.ok` when the loop completes and writes status
"done"; `.error` when an upsert fault escapes, leaving the status
untouched). -/
def run_search_once (reg : Registry) (translit : String → Option String)
    (job_id : String) (name : String) (pinyin_override : Option String)
    (hints : Hints) (job : JobState) (store : List Paper)
    (max_variants : Nat := 8) : Except LoopSt LoopSt :=
  let variants := selected_variants translit name pinyin_override max_variants
  let sources := hints.sources.getD ["openalex"]
  let total := variants.length * sources.length
  let units := variants.flatMap (fun v => sources.map (fun s => (v, s)))
  match runUnits reg job_id hints total units ⟨store, job, 0⟩ with
  | .ok st => .ok { st with job := { st.job with status := "done" } }
  | .error st => .error st

/-- Replace an adapter by one that returns its results and turns any
fault into an empty result list (the behaviour of the per-unit
`try/except` guard, expressed as an adapter transformation). -/
def absorbFn (f : AdapterFn) : AdapterFn :=
  fun v h => .ok (match f v h with | .ok its => its | .error _ => [])

/-- Apply `absorbFn` to every adapter of a registry. -/
def absorbFaults (reg : Registry) : Registry :=
  reg.map (fun e => (e.1, absorbFn e.2))

/-- All records handed to the upsert by registered adapters under these
hints carry a truthy normalized DOI — the condition under which
`upsert_paper` cannot raise (see C9 for what happens otherwise). -/
def benignReg (reg : Registry) (hints : Hints) : Prop :=
  ∀ (src : String) (f : AdapterFn), regGet reg src = some f →
    ∀ (v : String) (items : List Item), f v hints = .ok items →
      ∀ it ∈ items, (normalize_doi it.doi).getD "" ≠ ""

/-- How many of the selected provider tags are present in the registry. -/
def registeredCount (reg : Registry) (sources : List String) : Nat :=
  sources.countP (fun s => (regGet reg s).isSome)

/-! # Theorems -/

/-! ### Helper lemmas for idempotence of `compact_token` -/

theorem dropWhile_eq_self_of_all (p : Char → Bool) (l : List Char)
    (h : ∀ c ∈ l, p c = false) : l.dropWhile p = l := by
  cases l with
  | nil => rfl
  | cons c cs => simp [List.dropWhile_cons, h c (by simp)]

theorem stripL_eq_self_of_all (l : List Char)
    (h : ∀ c ∈ l, isSpaceB c = false) : stripL l = l := by
  unfold stripL
  rw [dropWhile_eq_self_of_all _ _ h,
      dropWhile_eq_self_of_all _ _ (fun c hc => h c (List.mem_reverse.mp hc)),
      List.reverse_reverse]

theorem puncSubGo_eq_self_of_all (b : Bool) (l : List Char)
    (h : ∀ c ∈ l, isPuncB c = false) : puncSubGo b l = l := by
  induction l generalizing b with
  | nil => rfl
  | cons c cs ih =>
    simp only [puncSubGo, h c (by simp)]
    simp [ih false (fun x hx => h x (by simp [hx]))]

theorem spaceSubGo_eq_self_of_all (b : Bool) (l : List Char)
    (h : ∀ c ∈ l, isSpaceB c = false) : spaceSubGo b l = l := by
  induction l generalizing b with
  | nil => rfl
  | cons c cs ih =>
    simp only [spaceSubGo, h c (by simp)]
    simp [ih false (fun x hx => h x (by simp [hx]))]

theorem lowerChar_eq_self_of_alnum (c : Char) (h : isLowerAlnumB c = true) :
    lowerChar c = c := by
  unfold lowerChar
  rw [if_neg]
  simp only [isLowerAlnumB, decide_eq_true_eq] at h
  simp only [isUpperB, decide_eq_true_eq]
  omega

theorem isSpaceB_false_of_alnum (c : Char) (h : isLowerAlnumB c = true) :
    isSpaceB c = false := by
  simp only [isLowerAlnumB, decide_eq_true_eq] at h
  simp only [isSpaceB, decide_eq_false_iff_not]
  omega

theorem isPuncB_false_of_alnum (c : Char) (h : isLowerAlnumB c = true) :
    isPuncB c = false := by
  simp only [isLowerAlnumB, decide_eq_true_eq] at h
  simp only [isPuncB, decide_eq_false_iff_not]
  omega

theorem normalize_name_eq_self_of_alnum (l : List Char)
    (h : ∀ c ∈ l, isLowerAlnumB c = true) :
    normalize_name ⟨l⟩ = ⟨l⟩ := by
  unfold normalize_name
  have htl : (String.mk l).toList = l := rfl
  rw [htl, stripL_eq_self_of_all _ (fun c hc => isSpaceB_false_of_alnum c (h c hc)),
      puncSubGo_eq_self_of_all _ _ (fun c hc => isPuncB_false_of_alnum c (h c hc)),
      spaceSubGo_eq_self_of_all _ _ (fun c hc => isSpaceB_false_of_alnum c (h c hc))]
  unfold lowerL
  have hmap : List.map lowerChar l = List.map id l :=
    List.map_congr_left (fun c hc => lowerChar_eq_self_of_alnum c (h c hc))
  rw [hmap, List.map_id]

/-- C4 (amended), part of the development: `compact_token` is idempotent. -/
theorem compact_token_idem (s : String) :
    compact_token (compact_token s) = compact_token s := by
  have hmem : ∀ c ∈ (normalize_name s).toList.filter isLowerAlnumB,
      isLowerAlnumB c = true := fun c hc => List.of_mem_filter hc
  show compact_token ⟨(normalize_name s).toList.filter isLowerAlnumB⟩ = _
  unfold compact_token
  rw [normalize_name_eq_self_of_alnum _ hmem]
  have htl : (String.mk ((normalize_name s).toList.filter isLowerAlnumB)).toList
      = (normalize_name s).toList.filter isLowerAlnumB := rfl
  rw [htl, List.filter_eq_self.mpr hmem]


/-! ## Claim C4: totality and idempotence of the normalizers -/

/-- C4, counterexample.  The claim "fold(fold(x)) == fold(x) for every
string x" is false at x = "-a-": `normalize_name` turns the edge
punctuation into edge whitespace (" a "), which a second application
strips away ("a"). -/
theorem C4_fold_not_idempotent :
    normalize_name "-a-" = " a " ∧
    normalize_name (normalize_name "-a-") ≠ normalize_name "-a-" :=
  ⟨by decide, by decide⟩

/-- C4, amended.  Both normalizers are total (they are plain functions on
all of `String`); `compact_token` is idempotent for every string, while
`normalize_name` is not idempotent in general (see the counterexample). -/
theorem C4_compact_idempotent :
    ∀ s : String, compact_token (compact_token s) = compact_token s :=
  compact_token_idem

/-! ## Claim C3: the dedup key and in-batch deduplication -/

/-- C3, counterexample.  The claim says the DOI part of the dedup key has
resolver URL prefixes stripped; `_key_for_dedupe` only trims and
lower-cases, so a record carrying the resolver form of the same DOI gets
a different key and survives in-batch deduplication alongside the bare
form (only `views.normalize_doi` strips the prefix). -/
theorem C3_dedup_key_counterexample :
    key_for_dedupe { doi := some "https://doi.org/10.1/X" } =
      ("doi", none, "https://doi.org/10.1/x") ∧
    normalize_doi (some "https://doi.org/10.1/X") = some "10.1/x" ∧
    dedupe_in_memory [{ doi := some "10.1/x" }, { doi := some "https://doi.org/10.1/X" }] =
      [{ doi := some "10.1/x" }, { doi := some "https://doi.org/10.1/X" }] :=
  ⟨by decide, by decide, by decide⟩

theorem filter_notMem_cons_split (k : String × Option Int × String)
    (seen : List (String × Option Int × String)) (l : List Item) :
    l.filter (fun y => decide (key_for_dedupe y ∉ k :: seen)) =
    (l.filter (fun y => decide (key_for_dedupe y ∉ seen))).filter
      (fun y => decide (key_for_dedupe y ≠ k)) := by
  induction l with
  | nil => rfl
  | cons a t ih =>
    by_cases h2 : key_for_dedupe a = k
    · subst h2
      by_cases h1 : key_for_dedupe a ∈ seen <;> simp [List.filter_cons, h1, ih]
    · by_cases h1 : key_for_dedupe a ∈ seen <;> simp [List.filter_cons, h1, h2, ih]

theorem dedupe_go_eq_spec (l : List Item) :
    ∀ seen, dedupe_go seen l =
      specKeepFirstByKey (l.filter (fun y => decide (key_for_dedupe y ∉ seen))) := by
  induction l with
  | nil => intro seen; simp [dedupe_go, specKeepFirstByKey]
  | cons it rest ih =>
    intro seen
    by_cases hk : key_for_dedupe it ∈ seen
    · simp only [dedupe_go, if_pos hk, List.filter_cons]
      rw [ih seen]
      congr 1
      simp [hk]
    · have hd : decide (key_for_dedupe it ∉ seen) = true := by simp [hk]
      simp only [dedupe_go, if_neg hk, List.filter_cons, hd, if_true]
      rw [specKeepFirstByKey, ih (key_for_dedupe it :: seen),
          filter_notMem_cons_split (key_for_dedupe it) seen rest]

/-- C3, amended.  The dedup key is the record's DOI merely trimmed and
lower-cased (resolver prefixes are kept) when that is non-empty, and
otherwise the triple of compact title token (tagged with the source,
rendered Python-style), year and provider; `dedupe_in_memory` keeps
exactly the first record of the batch for each key, in order of
appearance (`specKeepFirstByKey` is the spec's "first-seen wins"
formulation). -/
theorem C3_dedup_first_seen :
    (∀ it : Item, lowerS (pyStripS (it.doi.getD "")) ≠ "" →
      key_for_dedupe it = ("doi", none, lowerS (pyStripS (it.doi.getD "")))) ∧
    (∀ it : Item, lowerS (pyStripS (it.doi.getD "")) = "" →
      key_for_dedupe it =
        ("tysource", it.year, compact_token (it.title.getD "") ++ "|" ++ pyFStr it.source)) ∧
    (∀ items : List Item, dedupe_in_memory items = specKeepFirstByKey items) := by
  refine ⟨?_, ?_, ?_⟩
  · intro it h
    simp only [key_for_dedupe, if_pos h]
  · intro it h
    simp only [key_for_dedupe, h]
    simp
  · intro items
    rw [dedupe_in_memory, dedupe_go_eq_spec items []]
    congr 1
    simp

/-- C3 witness: the amended theorem applied at concrete inputs. -/
theorem C3_dedup_first_seen_witness :
    key_for_dedupe { doi := some " 10.5/Ab " } = ("doi", none, "10.5/ab") ∧
    key_for_dedupe { title := some "A-B", year := some 2001, source := some "arxiv" } =
      ("tysource", some 2001, "ab|arxiv") ∧
    dedupe_in_memory [({ doi := some "x" } : Item), { doi := some "X" }] =
      specKeepFirstByKey [({ doi := some "x" } : Item), { doi := some "X" }] := by
  refine ⟨?_, ?_, C3_dedup_first_seen.2.2 _⟩
  · exact (C3_dedup_first_seen.1 { doi := some " 10.5/Ab " } (by decide)).trans (by decide)
  · exact (C3_dedup_first_seen.2.1
      { title := some "A-B", year := some 2001, source := some "arxiv" } (by decide)).trans
      (by decide)

/-! ## Claim C7: the affiliation predicate -/

/-- C7: `aff_hits` passes every candidate when no affiliation keyword (or
an empty one) is supplied; for a non-empty keyword it passes exactly when
the folded keyword occurs as a literal substring of the folded form of
some candidate affiliation string — in particular "MIT" does not match
["Massachusetts Institute of Technology"]. -/
theorem C7_aff_filter :
    (∀ affs : Option (List String), aff_hits affs none = true) ∧
    (∀ affs : Option (List String), aff_hits affs (some "") = true) ∧
    (∀ (affs : List String) (kw : String), kw ≠ "" →
      (aff_hits (some affs) (some kw) = true ↔
        ∃ a ∈ affs,
          hasSubL (normalize_name kw).toList (normalize_name a).toList = true)) ∧
    aff_hits (some ["Massachusetts Institute of Technology"]) (some "MIT") = false := by
  refine ⟨fun affs => rfl, fun affs => rfl, ?_, by decide⟩
  intro affs kw hkw
  simp only [aff_hits, Option.getD_some, if_neg hkw]
  exact List.any_eq_true

/-- C7 witness: the conditional part of the theorem applied at concrete
inputs ("mit" against ["MIT CSAIL"] does match; the claim's MIT example
does not). -/
theorem C7_aff_filter_witness :
    ("mit" ≠ "") ∧
    (aff_hits (some ["MIT CSAIL"]) (some "mit") = true ↔
      ∃ a ∈ ["MIT CSAIL"],
        hasSubL (normalize_name "mit").toList (normalize_name a).toList = true) ∧
    aff_hits (some ["MIT CSAIL"]) (some "mit") = true :=
  ⟨by decide, C7_aff_filter.2.2.1 ["MIT CSAIL"] "mit" (by decide), by decide⟩

/-! ## Claim C6: order-insensitivity of the author matcher -/

/-- C6: with the variant token set generated for "Zhang Xi" (pypinyin
absent, no override), any candidate whose author list contains the string
"Xi Zhang" matches, and any candidate whose author list contains
"Zhang, Xi" also matches. -/
theorem C6_matcher_order_insensitive :
    (∀ authors : List String, "Xi Zhang" ∈ authors →
      any_variant_match authors
        (all_variant_texts_for_match (fun _ => none) "Zhang Xi" none) = true) ∧
    (∀ authors : List String, "Zhang, Xi" ∈ authors →
      any_variant_match authors
        (all_variant_texts_for_match (fun _ => none) "Zhang Xi" none) = true) := by
  constructor
  · intro authors hmem
    have hne : authors.isEmpty = false := by
      cases authors with
      | nil => cases hmem
      | cons a t => rfl
    simp only [any_variant_match, hne, Bool.false_or]
    rw [if_neg (by decide)]
    exact List.any_eq_true.mpr ⟨"Xi Zhang", hmem, by decide⟩
  · intro authors hmem
    have hne : authors.isEmpty = false := by
      cases authors with
      | nil => cases hmem
      | cons a t => rfl
    simp only [any_variant_match, hne, Bool.false_or]
    rw [if_neg (by decide)]
    exact List.any_eq_true.mpr ⟨"Zhang, Xi", hmem, by decide⟩

/-- C6 witness: both parts applied to singleton author lists. -/
theorem C6_matcher_witness :
    any_variant_match ["Xi Zhang"]
      (all_variant_texts_for_match (fun _ => none) "Zhang Xi" none) = true ∧
    any_variant_match ["Zhang, Xi"]
      (all_variant_texts_for_match (fun _ => none) "Zhang Xi" none) = true :=
  ⟨C6_matcher_order_insensitive.1 ["Xi Zhang"] (by decide),
   C6_matcher_order_insensitive.2 ["Zhang, Xi"] (by decide)⟩

/-! ## Claim C5: priority-0 variants and the match token set -/

/-- C5, counterexample.  For the non-empty canonical name "张三" (pypinyin
absent, no override) the single priority-0 variant is the name itself,
whose compact token is empty — not a non-empty member of the (empty)
match token set, contradicting the claim for every non-empty name. -/
theorem C5_variant_token_counterexample :
    (generate_variants (fun _ => none) "张三" none).p0 = ["张三"] ∧
    compact_token "张三" = "" ∧
    all_variant_texts_for_match (fun _ => none) "张三" none = [] :=
  ⟨by decide, by decide, by decide⟩

theorem mem_normTokens (x : String) (hne : compact_token x ≠ "") :
    ∀ (l : List String) (seen : List String), x ∈ l →
      compact_token x ∈ normTokens seen l ∨ compact_token x ∈ seen := by
  intro l
  induction l with
  | nil => intro seen hx; cases hx
  | cons y rest ih =>
    intro seen hx
    rcases List.mem_cons.mp hx with rfl | hx2
    · simp only [normTokens]
      split_ifs with h
      · exact Or.inl (List.mem_cons_self _ _)
      · rcases not_and_or.mp h with h1 | h2
        · exact absurd hne (by simpa using h1)
        · exact Or.inr (by simpa using h2)
    · simp only [normTokens]
      split_ifs with h
      · rcases ih (compact_token y :: seen) hx2 with h1 | h2
        · exact Or.inl (List.mem_cons_of_mem _ h1)
        · rcases List.mem_cons.mp h2 with heq | hseen
          · exact Or.inl (heq ▸ List.mem_cons_self _ _)
          · exact Or.inr hseen
      · exact ih seen hx2

/-- C5, amended.  For every canonical name (and transliteration), every
priority-0 variant *whose compact token is non-empty* has that token in
the flat token set returned for matching; the token can however be empty
(e.g. for a native-script name with no ASCII alphanumerics, see the
counterexample), in which case it is skipped. -/
theorem C5_variant_token_in_match_list (translit : String → Option String)
    (name : String) (override : Option String) (v : String)
    (hv : v ∈ (generate_variants translit name override).p0)
    (hne : compact_token v ≠ "") :
    compact_token v ∈ all_variant_texts_for_match translit name override := by
  simp only [all_variant_texts_for_match]
  have hvflat : v ∈ (generate_variants translit name override).p0 ++
      (generate_variants translit name override).p1 ++
      (generate_variants translit name override).p2 ++
      (generate_variants translit name override).p3 := by
    simp [hv]
  rcases mem_normTokens v hne _ [] (List.mem_append_left _ hvflat) with h | h
  · exact h
  · cases h

/-- C5 witness: the amended theorem at the concrete name "Zhang Xi". -/
theorem C5_variant_token_witness :
    compact_token "Zhang Xi" ∈
      all_variant_texts_for_match (fun _ => none) "Zhang Xi" none :=
  C5_variant_token_in_match_list (fun _ => none) "Zhang Xi" none "Zhang Xi"
    (by decide) (by decide)

/-! ## Claim C1: curation-state stickiness across upserts -/

/-- C1: the upsert used by the job loop (`views.upsert_paper`) never
changes the curation state of any already-stored paper — its `defaults`
contain no `state` key, the created row is a fresh one appended at the
end, and the no-DOI path raises before touching any row.  Concretely,
re-upserting a `confirmed` record with a new title from a later job
updates the title and keeps `confirmed` (second conjunct). -/
theorem C1_curation_state_sticky :
    (∀ (item : Item) (tr : Option String) (store store2 : List Paper),
      upsert_paper item tr store = .ok store2 →
      ∀ (i : Nat) (p : Paper), store.get? i = some p →
        ∃ q, store2.get? i = some q ∧ q.state = p.state) ∧
    upsert_paper { doi := some "10.1/x", title := some "New Title" } (some "job2")
      [{ title := "Old Title", doi := some "10.1/x", state := "confirmed",
         task_ref := "job1" }] =
    .ok [{ title := "New Title", doi := some "10.1/x", state := "confirmed",
           task_ref := "job1" }] := by
  constructor
  · intro item tr store store2 hok
    unfold upsert_paper at hok
    by_cases hd : (normalize_doi item.doi).getD "" ≠ ""
    · rw [if_pos hd] at hok
      have hval := Except.ok.inj hok
      subst hval
      intro i p hp
      by_cases hany :
          store.any (fun p => p.doi == some ((normalize_doi item.doi).getD "")) = true
      · rw [if_pos hany]
        rw [List.get?_map, hp]
        refine ⟨_, rfl, ?_⟩
        dsimp only
        split
        · rfl
        · rfl
      · rw [if_neg hany]
        have hlt : i < store.length := by
          by_contra hge
          rw [List.get?_eq_none.mpr (Nat.le_of_not_lt hge)] at hp
          cases hp
        rw [List.get?_append hlt, hp]
        exact ⟨p, rfl, rfl⟩
    · rw [if_neg hd] at hok
      cases hok
  · rfl

/-- C1 witness: the general part applied to a one-row store holding a
confirmed paper re-discovered with a new title by job2. -/
theorem C1_curation_state_sticky_witness :
    ∃ q : Paper,
      ([{ title := "New Title", doi := some "10.1/x", state := "confirmed",
          task_ref := "job1" }] : List Paper).get? 0 = some q ∧
      q.state = ({ title := "Old Title", doi := some "10.1/x", state := "confirmed",
                   task_ref := "job1" } : Paper).state :=
  C1_curation_state_sticky.1 { doi := some "10.1/x", title := some "New Title" }
    (some "job2")
    [{ title := "Old Title", doi := some "10.1/x", state := "confirmed", task_ref := "job1" }]
    [{ title := "New Title", doi := some "10.1/x", state := "confirmed", task_ref := "job1" }]
    (by rfl) 0
    { title := "Old Title", doi := some "10.1/x", state := "confirmed", task_ref := "job1" }
    (by rfl)

/-! ## Claim C2: which fields an upsert overwrites -/

/-- C2, counterexample.  The upsert used by the job loop
(`views.upsert_paper`) finds the stored record under the dedup key
(`10.1/x`) but leaves `venue`, `url` and `task_ref` at their old values —
its `defaults` only carry title, year, authors and source, and its
`task_ref` argument is never used — contradicting the claim that venue
and URL are overwritten and the last-job reference is set to the current
job. -/
theorem C2_descriptive_fields_counterexample :
    upsert_paper { doi := some "10.1/x", title := some "T new", venue := some "V new",
                   url := some "u new", year := some 2024, source := some "crossref" }
      (some "job2")
      [{ title := "T old", venue := "V old", url := "u old", doi := some "10.1/x",
         year := some 2000, source := "openalex", task_ref := "job1" }] =
    .ok [{ title := "T new", venue := "V old", url := "u old", doi := some "10.1/x",
           year := some 2024, source := "crossref", task_ref := "job1" }] ∧
    ("V old", "u old", "job1") ≠ ("V new", "u new", "job2") :=
  ⟨rfl, by decide⟩

/-- C2, amended.  The two upsert engines diverge.  (1) `storage.save_items`
on its DOI path behaves as the claim says: for a stored row carrying the
incoming (trimmed, lower-cased) DOI it overwrites title, venue, URL,
source and year with the incoming values and sets `task_ref` to the
current job id (it also overwrites the curation state and zeroes the
score).  (2) `views.upsert_paper` — the engine the orchestration loop
actually calls — overwrites only title, year, authors and source, and
leaves venue, URL and `task_ref` (and the curation state) untouched. -/
theorem C2_descriptive_fields :
    (∀ (jid ds : String) (it : Item) (store : List Paper) (d : String),
      d = lowerS (pyStripS (it.doi.getD "")) → d ≠ "" →
      store.any (fun p => p.doi == some d) = true →
      ∀ (i : Nat),
        (save_items jid [it] store ds).1.get? i =
          (store.get? i).map (fun p =>
            if p.doi == some d then
              { p with
                title := it.title.getD "", year := it.year, venue := it.venue.getD "",
                url := it.url.getD "", source := it.source.getD "",
                task_ref := jid, state := stateOf it ds, score := 0 }
            else p)) ∧
    (∀ (item : Item) (tr : Option String) (store store2 : List Paper) (d : String),
      normalize_doi item.doi = some d → d ≠ "" →
      store.any (fun p => p.doi == some d) = true →
      upsert_paper item tr store = .ok store2 →
      ∀ (i : Nat),
        store2.get? i =
          (store.get? i).map (fun p =>
            if p.doi == some d then
              { p with
                title := item.title.getD "", year := item.year,
                authors := item.authors.getD [], source := item.source.getD "" }
            else p)) := by
  constructor
  · intro jid ds it store d hdef hd hany i
    subst hdef
    show (save_items_step jid ds store it).get? i = _
    unfold save_items_step
    rw [if_pos hd, if_pos hany, List.get?_map]
  · intro item tr store store2 d hdoi hd hany hok i
    unfold upsert_paper at hok
    simp only [hdoi, Option.getD_some] at hok
    rw [if_pos hd, if_pos hany] at hok
    have hval := Except.ok.inj hok
    subst hval
    rw [List.get?_map]
    cases store.get? i with
    | none => rfl
    | some p => rfl

/-- C2 witness: both engines applied to a one-row store matched by DOI
(`save_items` rewrites venue/url/task_ref/state, `upsert_paper` keeps
them). -/
theorem C2_descriptive_fields_witness :
    (save_items "job2"
        [{ doi := some "10.1/x", title := some "T new", venue := some "V new",
           url := some "u new", year := some 2024, source := some "crossref" }]
        [{ title := "T old", venue := "V old", url := "u old", doi := some "10.1/x",
           year := some 2000, source := "openalex", state := "confirmed",
           task_ref := "job1" }] "pending").1.get? 0 =
      some { title := "T new", venue := "V new", url := "u new", doi := some "10.1/x",
             year := some 2024, source := "crossref", state := "pending",
             task_ref := "job2" } ∧
    ([{ title := "T new", venue := "V old", url := "u old", doi := some "10.1/x",
        year := some 2024, source := "crossref", state := "confirmed",
        task_ref := "job1" }] : List Paper).get? 0 =
      some { title := "T new", venue := "V old", url := "u old", doi := some "10.1/x",
             year := some 2024, source := "crossref", state := "confirmed",
             task_ref := "job1" } := by
  constructor
  · have ha := C2_descriptive_fields.1 "job2" "pending"
      { doi := some "10.1/x", title := some "T new", venue := some "V new",
        url := some "u new", year := some 2024, source := some "crossref" }
      [{ title := "T old", venue := "V old", url := "u old", doi := some "10.1/x",
         year := some 2000, source := "openalex", state := "confirmed",
         task_ref := "job1" }]
      "10.1/x" (by decide) (by decide) (by decide) 0
    exact ha.trans (by decide)
  · have hb := C2_descriptive_fields.2
      { doi := some "10.1/x", title := some "T new", venue := some "V new",
        url := some "u new", year := some 2024, source := some "crossref" }
      (some "job2")
      [{ title := "T old", venue := "V old", url := "u old", doi := some "10.1/x",
         year := some 2000, source := "openalex", state := "confirmed",
         task_ref := "job1" }]
      [{ title := "T new", venue := "V old", url := "u old", doi := some "10.1/x",
         year := some 2024, source := "crossref", state := "confirmed",
         task_ref := "job1" }]
      "10.1/x" (by decide) (by decide) (by decide) (by rfl) 0
    exact hb.trans (by decide)

/-! ## Orchestrator lemmas -/

theorem upsert_ok_of_doi (item : Item) (tr : Option String) (store : List Paper)
    (h : (normalize_doi item.doi).getD "" ≠ "") :
    ∃ store2, upsert_paper item tr store = .ok store2 := by
  unfold upsert_paper
  rw [if_pos h]
  exact ⟨_, rfl⟩

theorem processItems_ok (jid : String) (items : List Item)
    (hall : ∀ it ∈ items, (normalize_doi it.doi).getD "" ≠ "") :
    ∀ store, ∃ store2, processItems jid items store = .ok store2 := by
  induction items with
  | nil => intro store; exact ⟨store, rfl⟩
  | cons it rest ih =>
    intro store
    obtain ⟨s1, h1⟩ := upsert_ok_of_doi it (some jid) store (hall it (by simp))
    obtain ⟨s2, h2⟩ := ih (fun x hx => hall x (by simp [hx])) s1
    exact ⟨s2, by simp [processItems, h1, h2]⟩

theorem runUnits_status (reg : Registry) (jid : String) (hints : Hints) (total : Nat) :
    ∀ (units : List (String × String)) (st st2 : LoopSt),
      (runUnits reg jid hints total units st = .ok st2 ∨
       runUnits reg jid hints total units st = .error st2) →
      st2.job.status = st.job.status := by
  intro units
  induction units with
  | nil =>
    intro st st2 h
    rcases h with h | h
    · cases h; rfl
    · cases h
  | cons u rest ih =>
    obtain ⟨v, src⟩ := u
    intro st st2 h
    cases hreg : regGet reg src with
    | none =>
      simp only [runUnits, hreg] at h
      exact ih st st2 h
    | some f =>
      simp only [runUnits, hreg] at h
      cases hf : f v hints with
      | ok its =>
        simp only [hf] at h
        cases hpi : processItems jid its st.store with
        | error ps =>
          simp only [hpi] at h
          rcases h with h | h
          · cases h
          · cases h; rfl
        | ok s2 =>
          simp only [hpi] at h
          have hres := ih _ st2 h
          exact hres
      | error e =>
        simp only [hf] at h
        cases hpi : processItems jid [] st.store with
        | error ps =>
          simp only [hpi] at h
          rcases h with h | h
          · cases h
          · cases h; rfl
        | ok s2 =>
          simp only [hpi] at h
          have hres := ih _ st2 h
          exact hres

/-! ## Claim C9: a no-DOI record aborts the job -/

/-- C9: `upsert_paper` raises (Django `FieldError`: `Paper` has no
`source_id` field) on every item whose normalized DOI is falsy, and any
fault escaping the unit loop of `_run_search_once` leaves the job status
untouched — a job that started as "running" stays "running" (the
terminal-status write is never reached). -/
theorem C9_no_doi_aborts :
    (∀ (item : Item) (tr : Option String) (store : List Paper),
      (normalize_doi item.doi).getD "" = "" →
      upsert_paper item tr store = .error .fieldErrorSourceId) ∧
    (∀ (reg : Registry) (translit : String → Option String) (job_id name : String)
       (override : Option String) (hints : Hints) (job : JobState) (store : List Paper)
       (mv : Nat) (st : LoopSt),
      run_search_once reg translit job_id name override hints job store mv = .error st →
      st.job.status = job.status) := by
  constructor
  · intro item tr store h
    unfold upsert_paper
    rw [if_neg (fun hne => hne h)]
  · intro reg translit job_id name override hints job store mv st hrun
    simp only [run_search_once] at hrun
    cases hru : runUnits reg job_id hints
        ((selected_variants translit name override mv).length *
          (hints.sources.getD ["openalex"]).length)
        ((selected_variants translit name override mv).flatMap
          (fun v => (hints.sources.getD ["openalex"]).map (fun s => (v, s))))
        ⟨store, job, 0⟩ with
    | ok st0 =>
      rw [hru] at hrun
      cases hrun
    | error st0 =>
      rw [hru] at hrun
      cases hrun
      exact runUnits_status reg job_id hints _ _ ⟨store, job, 0⟩ _ (Or.inr hru)

/-- C9 witness: a concrete adapter returning one record without a DOI —
the upsert raises and the whole run aborts with the job still "running",
even though the unit total was 1. -/
theorem C9_no_doi_aborts_witness :
    upsert_paper { title := some "NoDoi", year := some 2020, source := some "openalex" }
      (some "j1") [] = .error .fieldErrorSourceId ∧
    (⟨[], { status := "running", progress := 0 }, 0⟩ : LoopSt).job.status = "running" := by
  constructor
  · exact C9_no_doi_aborts.1
      { title := some "NoDoi", year := some 2020, source := some "openalex" }
      (some "j1") [] (by decide)
  · have hrun : run_search_once
        [("openalex", fun v h =>
          .ok [{ title := some "NoDoi", year := some 2020, source := some "openalex" }])]
        (fun s => none) "j1" "Zhang Xi" none { sources := some ["openalex"] }
        { status := "running", progress := 0 } [] 8 =
        .error ⟨[], { status := "running", progress := 0 }, 0⟩ := by rfl
    exact C9_no_doi_aborts.2 _ _ _ _ _ _ _ _ _ _ hrun

theorem runUnits_benign (reg : Registry) (jid : String) (hints : Hints) (total : Nat)
    (hben : benignReg reg hints) :
    ∀ (units : List (String × String)) (st : LoopSt),
      ∃ st2, runUnits reg jid hints total units st = .ok st2 ∧
        st2.job.status = st.job.status ∧
        st2.done = st.done + units.countP (fun u => (regGet reg u.2).isSome) ∧
        st2.job.progress =
          (if units.countP (fun u => (regGet reg u.2).isSome) = 0 then st.job.progress
           else round3 ((st2.done : ℚ) / (max 1 total : ℚ))) := by
  intro units
  induction units with
  | nil =>
    intro st
    exact ⟨st, rfl, rfl, by simp, by simp⟩
  | cons u rest ih =>
    obtain ⟨v, src⟩ := u
    intro st
    cases hreg : regGet reg src with
    | none =>
      obtain ⟨st2, hrun, hstat, hdone, hprog⟩ := ih st
      have hcount : List.countP (fun u => (regGet reg u.2).isSome) ((v, src) :: rest) =
          List.countP (fun u => (regGet reg u.2).isSome) rest := by
        simp [List.countP_cons, hreg]
      refine ⟨st2, ?_, hstat, by rw [hcount]; exact hdone, by rw [hcount]; exact hprog⟩
      simp only [runUnits, hreg]
      exact hrun
    | some f =>
      have hitems : ∀ it ∈ (match f v hints with | .ok its => its | .error _ => []),
          (normalize_doi it.doi).getD "" ≠ "" := by
        cases hf : f v hints with
        | ok its => exact fun it hit => hben src f hreg v its hf it hit
        | error e => intro it hit; cases hit
      obtain ⟨s2, hpi⟩ := processItems_ok jid _ hitems st.store
      obtain ⟨st2, hrun, hstat, hdone, hprog⟩ := ih
        ⟨s2, { st.job with
               progress := round3 (((st.done + 1 : Nat) : ℚ) / (max 1 total : ℚ)) },
         st.done + 1⟩
      have hcount : List.countP (fun u => (regGet reg u.2).isSome) ((v, src) :: rest) =
          List.countP (fun u => (regGet reg u.2).isSome) rest + 1 := by
        simp [List.countP_cons, hreg]
      have hdone2 : st2.done =
          st.done + 1 + List.countP (fun u => (regGet reg u.2).isSome) rest := hdone
      refine ⟨st2, ?_, hstat, ?_, ?_⟩
      · simp only [runUnits, hreg, hpi]
        exact hrun
      · rw [hcount]
        omega
      · rw [hcount]
        rw [if_neg (by omega)]
        rcases Nat.eq_zero_or_pos (List.countP (fun u => (regGet reg u.2).isSome) rest)
          with hzero | hpos
        · rw [hprog, if_pos hzero]
          have hd : st.done + 1 = st2.done := by omega
          rw [hd]
        · rw [hprog, if_neg (by omega)]

/-! ## Claim C8: per-unit adapter fault isolation -/

theorem regGet_absorbFaults (reg : Registry) (src : String) :
    regGet (absorbFaults reg) src = (regGet reg src).map absorbFn := by
  induction reg with
  | nil => rfl
  | cons e rest ih =>
    obtain ⟨k, f⟩ := e
    by_cases hk : k = src
    · simp [absorbFaults, regGet, hk]
    · simp only [absorbFaults, List.map_cons, regGet, if_neg hk]
      exact ih

theorem runUnits_absorbFaults (reg : Registry) (jid : String) (hints : Hints) (total : Nat) :
    ∀ (units : List (String × String)) (st : LoopSt),
      runUnits (absorbFaults reg) jid hints total units st =
      runUnits reg jid hints total units st := by
  intro units
  induction units with
  | nil => intro st; rfl
  | cons u rest ih =>
    obtain ⟨v, src⟩ := u
    intro st
    cases hreg : regGet reg src with
    | none =>
      have habs : regGet (absorbFaults reg) src = none := by
        rw [regGet_absorbFaults, hreg]; rfl
      simp only [runUnits, hreg, habs]
      exact ih st
    | some f =>
      have habs : regGet (absorbFaults reg) src = some (absorbFn f) := by
        rw [regGet_absorbFaults, hreg]; rfl
      simp only [runUnits, hreg, habs]
      have hit : (match absorbFn f v hints with | .ok its => its | .error _ => []) =
          (match f v hints with | .ok its => its | .error _ => []) := by
        cases hfv : f v hints <;> simp [absorbFn, hfv]
      rw [hit]
      cases processItems jid (match f v hints with | .ok its => its | .error _ => [])
          st.store with
      | error ps => rfl
      | ok s2 => exact ih _

/-- C8: (1) adapter faults are caught at unit granularity and treated
exactly as an empty result set — running the loop with any registry is
the same as running it with every adapter wrapped so that faults become
`[]`; (2) provided every item actually returned by a registered adapter
carries a DOI (so the upsert itself cannot raise, see C9), the loop runs
to completion and writes terminal status "done" even when adapters
fault. -/
theorem C8_adapter_fault_isolated :
    (∀ (reg : Registry) (translit : String → Option String) (job_id name : String)
       (override : Option String) (hints : Hints) (job : JobState) (store : List Paper)
       (mv : Nat),
      run_search_once reg translit job_id name override hints job store mv =
      run_search_once (absorbFaults reg) translit job_id name override hints job store mv) ∧
    (∀ (reg : Registry) (translit : String → Option String) (job_id name : String)
       (override : Option String) (hints : Hints) (job : JobState) (store : List Paper)
       (mv : Nat),
      benignReg reg hints →
      ∃ st, run_search_once reg translit job_id name override hints job store mv = .ok st ∧
        st.job.status = "done") := by
  constructor
  · intro reg translit job_id name override hints job store mv
    simp only [run_search_once]
    rw [runUnits_absorbFaults]
  · intro reg translit job_id name override hints job store mv hben
    obtain ⟨st2, hrun, hstat, hdone, hprog⟩ := runUnits_benign reg job_id hints
      ((selected_variants translit name override mv).length *
        (hints.sources.getD ["openalex"]).length) hben
      ((selected_variants translit name override mv).flatMap
        (fun v => (hints.sources.getD ["openalex"]).map (fun s => (v, s))))
      ⟨store, job, 0⟩
    refine ⟨{ st2 with job := { st2.job with status := "done" } }, ?_, rfl⟩
    simp only [run_search_once]
    rw [hrun]

/-- C8 witness: a registry whose only adapter always faults is benign
(it never returns items), and the job still terminates "done". -/
theorem C8_adapter_fault_witness :
    ∃ st, run_search_once [("openalex", fun v h => .error ())] (fun s => none)
        "j1" "Zhang Xi" none { sources := some ["openalex"] }
        { status := "running", progress := 0 } [] 8 = .ok st ∧
      st.job.status = "done" := by
  refine C8_adapter_fault_isolated.2 _ _ _ _ _ _ _ _ _ ?_
  intro src f hf v items hitems it hit
  have hsome : f = fun v h => (.error () : Except Unit (List Item)) := by
    by_cases hk : "openalex" = src
    · simpa [regGet, hk] using hf.symm
    · simp [regGet, hk] at hf
  rw [hsome] at hitems
  cases hitems

/-! ## Claim C10: unknown provider tags and final progress -/

theorem countP_flatMap_units (reg : Registry) (variants sources : List String) :
    (variants.flatMap (fun v => sources.map (fun s => (v, s)))).countP
      (fun u => (regGet reg u.2).isSome) =
    variants.length * registeredCount reg sources := by
  induction variants with
  | nil => simp
  | cons v rest ih =>
    simp only [List.flatMap_cons, List.countP_append, ih, List.length_cons]
    rw [List.countP_map]
    have hcomp : List.countP ((fun u : String × String => (regGet reg u.2).isSome) ∘
        (fun s => (v, s))) sources = registeredCount reg sources := rfl
    rw [hcomp, registeredCount]
    ring

theorem roundHalfEven_le (q : ℚ) : (roundHalfEven q : ℚ) ≤ q + 1/2 := by
  unfold roundHalfEven
  have hf : ((⌊q⌋ : ℤ) : ℚ) ≤ q := Int.floor_le q
  have hf2 : q < ⌊q⌋ + 1 := Int.lt_floor_add_one q
  dsimp only
  split_ifs with h1 h2 h3
  · linarith
  · push_cast
    linarith
  · linarith
  · have hr : q - (⌊q⌋ : ℚ) = 1/2 := le_antisymm (not_lt.mp h2) (not_lt.mp h1)
    push_cast
    linarith

theorem round3_lt_one (q : ℚ) (h : q ≤ 7/8) : round3 q < 1 := by
  unfold round3
  have h1 := roundHalfEven_le (1000 * q)
  rw [div_lt_one (by norm_num)]
  linarith

/-- C10: when the selected sources include a tag absent from the adapter
registry (and at least one variant survives, items are benign as in C8,
and at most 8 providers are selected, as the search form offers only 4),
the loop skips the unknown provider's units without incrementing the
completed-unit counter, terminates with status "done", and the final
completed count is (variants × registered providers) — strictly short of
the unit total — so the last written progress stays strictly below 1. -/
theorem C10_unknown_provider_progress :
    ∀ (reg : Registry) (translit : String → Option String) (job_id name : String)
      (override : Option String) (hints : Hints) (job : JobState) (store : List Paper)
      (mv : Nat),
      job.status = "running" → job.progress = 0 →
      benignReg reg hints →
      (hints.sources.getD ["openalex"]).length ≤ 8 →
      (∃ s ∈ hints.sources.getD ["openalex"], regGet reg s = none) →
      selected_variants translit name override mv ≠ [] →
      ∃ st, run_search_once reg translit job_id name override hints job store mv = .ok st ∧
        st.job.status = "done" ∧
        st.done = (selected_variants translit name override mv).length *
          registeredCount reg (hints.sources.getD ["openalex"]) ∧
        st.done < (selected_variants translit name override mv).length *
          (hints.sources.getD ["openalex"]).length ∧
        st.job.progress < 1 := by
  intro reg translit job_id name override hints job store mv hstat hprog0 hben hlen hex hvars
  obtain ⟨s0, hs0mem, hs0none⟩ := hex
  obtain ⟨st2, hrun, hstat2, hdone, hprog⟩ := runUnits_benign reg job_id hints
    ((selected_variants translit name override mv).length *
      (hints.sources.getD ["openalex"]).length) hben
    ((selected_variants translit name override mv).flatMap
      (fun v => (hints.sources.getD ["openalex"]).map (fun s => (v, s))))
    ⟨store, job, 0⟩
  have hcount := countP_flatMap_units reg (selected_variants translit name override mv)
    (hints.sources.getD ["openalex"])
  have hnk : registeredCount reg (hints.sources.getD ["openalex"]) <
      (hints.sources.getD ["openalex"]).length := by
    refine lt_of_le_of_ne (List.countP_le_length _) ?_
    intro heq
    have hall := List.countP_eq_length.mp heq s0 hs0mem
    rw [hs0none] at hall
    cases hall
  have hnv : 0 < (selected_variants translit name override mv).length :=
    List.length_pos.mpr hvars
  have hns : 0 < (hints.sources.getD ["openalex"]).length := by
    refine List.length_pos.mpr ?_
    intro hnil
    rw [hnil] at hs0mem
    cases hs0mem
  have hstdone : st2.done = (selected_variants translit name override mv).length *
      registeredCount reg (hints.sources.getD ["openalex"]) := by
    have h0 : ({ store := store, job := job, done := 0 } : LoopSt).done = 0 := rfl
    rw [hdone, hcount, h0, Nat.zero_add]
  refine ⟨{ st2 with job := { st2.job with status := "done" } }, ?_, rfl, hstdone, ?_, ?_⟩
  · simp only [run_search_once]
    rw [hrun]
  · rw [hstdone]
    exact mul_lt_mul_of_pos_left hnk hnv
  · show st2.job.progress < 1
    rw [hprog]
    by_cases hzero :
        ((selected_variants translit name override mv).flatMap
          (fun v => (hints.sources.getD ["openalex"]).map (fun s => (v, s)))).countP
          (fun u => (regGet reg u.2).isSome) = 0
    · rw [if_pos hzero]
      show job.progress < 1
      rw [hprog0]
      norm_num
    · rw [if_neg hzero]
      apply round3_lt_one
      have htot : 1 ≤ (selected_variants translit name override mv).length *
          (hints.sources.getD ["openalex"]).length := Nat.mul_pos hnv hns
      have hmax : max (1 : ℚ)
          (((selected_variants translit name override mv).length *
            (hints.sources.getD ["openalex"]).length : Nat) : ℚ) =
          (((selected_variants translit name override mv).length *
            (hints.sources.getD ["openalex"]).length : Nat) : ℚ) := by
        refine max_eq_right ?_
        exact_mod_cast htot
      rw [hmax]
      have h8 : 8 * registeredCount reg (hints.sources.getD ["openalex"]) ≤
          7 * (hints.sources.getD ["openalex"]).length := by omega
      have hnat : 8 * st2.done ≤
          7 * ((selected_variants translit name override mv).length *
            (hints.sources.getD ["openalex"]).length) := by
        rw [hstdone]
        calc 8 * ((selected_variants translit name override mv).length *
                registeredCount reg (hints.sources.getD ["openalex"]))
            = (selected_variants translit name override mv).length *
                (8 * registeredCount reg (hints.sources.getD ["openalex"])) := by ring
          _ ≤ (selected_variants translit name override mv).length *
                (7 * (hints.sources.getD ["openalex"]).length) :=
              Nat.mul_le_mul_left _ h8
          _ = 7 * ((selected_variants translit name override mv).length *
                (hints.sources.getD ["openalex"]).length) := by ring
      rw [div_le_iff (by exact_mod_cast htot)]
      have hq : (8 : ℚ) * st2.done ≤
          7 * (((selected_variants translit name override mv).length *
            (hints.sources.getD ["openalex"]).length : Nat) : ℚ) := by
        exact_mod_cast hnat
      linarith

/-- C10 witness: one known provider ("openalex", returning no items) and
one unknown tag ("nope"): the job finishes "done", the counter counts
only the known provider's unit, and progress ends below 1. -/
theorem C10_unknown_provider_witness :
    ∃ st, run_search_once [("openalex", fun v h => .ok [])] (fun s => none)
        "j1" "Zhang Xi" none { sources := some ["openalex", "nope"] }
        { status := "running", progress := 0 } [] 8 = .ok st ∧
      st.job.status = "done" ∧
      st.done = (selected_variants (fun s => none) "Zhang Xi" none 8).length *
        registeredCount [("openalex", fun v h => .ok [])] ["openalex", "nope"] ∧
      st.done < (selected_variants (fun s => none) "Zhang Xi" none 8).length *
        (["openalex", "nope"] : List String).length ∧
      st.job.progress < 1 := by
  refine C10_unknown_provider_progress _ _ _ _ _ _ _ _ _ rfl rfl ?_ (by decide)
    ⟨"nope", by decide, rfl⟩ (by decide)
  intro src f hf v items hitems it hit
  have hsome : f = fun v h => (.ok [] : Except Unit (List Item)) := by
    by_cases hk : "openalex" = src
    · simpa [regGet, hk] using hf.symm
    · simp [regGet, hk] at hf
  rw [hsome] at hitems
  have : items = [] := (Except.ok.inj hitems).symm
  rw [this] at hit
  cases hit

end PaperFinder
